import Mathlib

/- Shallow embedding of `yt_parser.py`: the API-key pool (`KeyManager`),
the quota-aware request executor (`KeyManager.execute`), the shelve-backed
response cache of `search_once`, the per-keyword search pagination, and the
resumable main loop, together with theorems settling claims of the
specification against this embedding. -/

namespace YtParser

/-! ## `KeyManager.get_key` (yt_parser.py lines 94-101)

The state of an `APIKey` that key selection consults is its `active`
flag; the pool state is the list of flags (position `i` is
`self.keys[i].active`) together with the round-robin cursor `self.index`. -/

/-- The `for _ in range(n)` scan inside `KeyManager.get_key`: read
`self.keys[self.index]`, advance `self.index = (self.index + 1) % n`, and
return the probed position (paired with the updated cursor) as soon as the
probed flag is set. -/
def getKeyLoop (keys : List Bool) : Nat → Nat → Option (Nat × Nat)
  | 0, _ => none
  | fuel + 1, index =>
    let index1 := (index + 1) % keys.length
    if keys.getD index false then some (index, index1)
    else getKeyLoop keys fuel index1

/-- `KeyManager.get_key`: scan the whole pool once starting at the cursor;
`none` models raising `QuotaExceededAllKeys`. -/
def get_key (keys : List Bool) (index : Nat) : Option (Nat × Nat) :=
  getKeyLoop keys keys.length index

/-- Probe `j` of a round-robin scan of the pool that starts at `index`. -/
def scanProbe (keys : List Bool) (index j : Nat) : Bool :=
  keys.getD ((index + j) % keys.length) false

/-- Modelled from the spec: acquire scans at most `k` positions in
round-robin order from the cursor, skips inactive credentials, and returns
the first active one (with the cursor moved one past it); no probe
succeeding means failure. -/
def get_key_spec (keys : List Bool) (index : Nat) : Option (Nat × Nat) :=
  ((List.range keys.length).find? (scanProbe keys index)).map fun j =>
    ((index + j) % keys.length, ((index + j) % keys.length + 1) % keys.length)

lemma find?_map_succ (p : Nat → Bool) (l : List Nat) :
    (l.map Nat.succ).find? p = (l.find? fun j => p (j + 1)).map Nat.succ := by
  induction l with
  | nil => rfl
  | cons a l ih =>
    simp only [List.map_cons, List.find?_cons]
    cases hp : p (a + 1) <;> simp_all [Nat.succ_eq_add_one]

lemma getKeyLoop_eq (keys : List Bool) :
    ∀ fuel index, index < keys.length →
      getKeyLoop keys fuel index =
        ((List.range fuel).find? (scanProbe keys index)).map (fun j =>
          ((index + j) % keys.length, ((index + j) % keys.length + 1) % keys.length)) := by
  intro fuel
  induction fuel with
  | zero => intro index _; simp [getKeyLoop]
  | succ fuel ih =>
    intro index h
    have hn : 0 < keys.length := Nat.lt_of_le_of_lt (Nat.zero_le _) h
    have hmod : index % keys.length = index := Nat.mod_eq_of_lt h
    have hprobe0 : scanProbe keys index 0 = keys.getD index false := by
      simp [scanProbe, hmod]
    rw [getKeyLoop, List.range_succ_eq_map, List.find?_cons]
    cases hp : keys.getD index false with
    | true =>
      simp only [hprobe0, hp]
      simp [hmod]
    | false =>
      simp only [hprobe0, hp]
      have h1 : (index + 1) % keys.length < keys.length := Nat.mod_lt _ hn
      rw [ih ((index + 1) % keys.length) h1, find?_map_succ]
      have hscan : (scanProbe keys ((index + 1) % keys.length)) =
          fun j => scanProbe keys index (j + 1) := by
        funext j
        simp only [scanProbe]
        congr 1
        rw [Nat.mod_add_mod, Nat.add_assoc, Nat.add_comm 1 j]
      have hpos : ∀ j : Nat,
          ((index + 1) % keys.length + j) % keys.length = (index + (j + 1)) % keys.length := by
        intro j
        rw [Nat.mod_add_mod, Nat.add_assoc, Nat.add_comm 1 j]
      rw [hscan]
      cases hfind : (List.range fuel).find? (fun j => scanProbe keys index (j + 1)) with
      | none => simp
      | some j =>
        have hj : index + 1 + j = index + (j + 1) := by omega
        simp [Nat.succ_eq_add_one, hj]

lemma scan_none_iff (keys : List Bool) (index : Nat) (h : index < keys.length) :
    (∀ j ∈ List.range keys.length, ¬ scanProbe keys index j) ↔ ∀ b ∈ keys, b = false := by
  constructor
  · intro hall b hb
    obtain ⟨p, hp, rfl⟩ := List.mem_iff_getElem.mp hb
    by_cases hpi : index ≤ p
    · have hj := hall (p - index) (List.mem_range.mpr (by omega))
      simp only [scanProbe] at hj
      have heq : (index + (p - index)) % keys.length = p := by
        have : index + (p - index) = p := by omega
        rw [this, Nat.mod_eq_of_lt hp]
      rw [heq, List.getD_eq_getElem keys false hp] at hj
      simpa using hj
    · have hj := hall (keys.length - index + p) (List.mem_range.mpr (by omega))
      simp only [scanProbe] at hj
      have heq : (index + (keys.length - index + p)) % keys.length = p := by
        have h1 : index + (keys.length - index + p) = p + keys.length := by omega
        rw [h1, Nat.add_mod_right, Nat.mod_eq_of_lt hp]
      rw [heq, List.getD_eq_getElem keys false hp] at hj
      simpa using hj
  · intro hall j _
    have hlt : (index + j) % keys.length < keys.length := Nat.mod_lt _ (by omega)
    simp only [scanProbe]
    rw [List.getD_eq_getElem keys false hlt]
    have := hall _ (List.getElem_mem hlt)
    simp [this]

/-- C1: for a pool with `k` credentials, `get_key` scans at most `k`
positions round-robin from the cursor, skips inactive credentials, returns
the first active one (moving the cursor one past it), and signals
`QuotaExceededAllKeys` (`none`) exactly when zero credentials remain
active.  The hypothesis is the reachable-state invariant of the cursor
(`self.index` starts at 0 and is always reduced `% n`). -/
theorem get_key_round_robin (keys : List Bool) (index : Nat)
    (h : index < keys.length ∨ keys.length = 0) :
    get_key keys index = get_key_spec keys index ∧
    (get_key keys index = none ↔ ∀ b ∈ keys, b = false) := by
  rcases h with h | h
  · have heq := getKeyLoop_eq keys keys.length index h
    refine ⟨heq, ?_⟩
    rw [get_key, heq, Option.map_eq_none']
    rw [List.find?_eq_none]
    exact scan_none_iff keys index h
  · have hk : keys = [] := List.length_eq_zero.mp h
    subst hk
    simp [get_key, get_key_spec, getKeyLoop]

/-- Witness for C1 at a concrete pool: two keys, the first inactive. -/
theorem get_key_round_robin_witness :
    get_key [false, true] 0 = get_key_spec [false, true] 0 ∧
    (get_key [false, true] 0 = none ↔ ∀ b ∈ [false, true], b = false) :=
  get_key_round_robin [false, true] 0 (Or.inl (by decide))

/-! ## `KeyManager.execute` (yt_parser.py lines 111-150)

One iteration of the `while True` loop acquires a key via `get_key`,
builds and executes the call, and classifies the outcome by the source's
`except` clauses.  The sequence of call outcomes is modelled by a script
consumed one element per executed request; the usage recording of
`self.record` is not consulted by any claim and is omitted.  The trace
records the backoff sleeps (in seconds) and the key positions used, in
order. -/

/-- Classification of one executed request, following the `except` clauses
of `KeyManager.execute`: a normal return, a quota-class `HttpError`
(`quotaExceeded` / `dailyLimitExceeded` in `str(e)`), a rate-limit-class
`HttpError` (`rateLimitExceeded`), a transient network error
(`ConnectionResetError` / `socket.error`), or any other `HttpError`. -/
inductive Outcome where
  | success
  | quotaErr
  | rateErr
  | connErr
  | otherErr
deriving DecidableEq

/-- How a call to `KeyManager.execute` ends: a response returned (with the
pool state and the unconsumed script), `QuotaExceededAllKeys` raised by
`get_key`, or an unexpected `HttpError` re-raised. -/
inductive ExecEnd where
  | ok (keys : List Bool) (index : Nat) (rest : List Outcome)
  | quotaAll
  | fatal
deriving DecidableEq

/-- Observable trace of one `execute` call: `time.sleep` delays and key
positions acquired, in order, plus how the call ended. -/
structure ExecTrace where
  sleeps : List Nat
  used : List Nat
  result : ExecEnd
deriving DecidableEq

def ExecTrace.addUse (p : Nat) (t : ExecTrace) : ExecTrace :=
  { t with used := p :: t.used }

def ExecTrace.addSleep (d : Nat) (t : ExecTrace) : ExecTrace :=
  { t with sleeps := d :: t.sleeps }

/-- The `while True` loop of `KeyManager.execute`, with `attempt` the
single retry counter declared at the top of the call.  `none` is a model
artifact (outcome script exhausted mid-call); the Python loop itself never
returns without one of the three `ExecEnd` events. -/
def executeLoop (backoff_max : Nat) :
    List Outcome → List Bool → Nat → Nat → Option ExecTrace
  | script, keys, index, attempt =>
    match get_key keys index with
    | none => some ⟨[], [], .quotaAll⟩
    | some (pos, index1) =>
      match script with
      | [] => none
      | o :: rest =>
        match o with
        | .success => some ⟨[], [pos], .ok keys index1 rest⟩
        | .quotaErr =>
          (executeLoop backoff_max rest (keys.set pos false) index1 attempt).map
            (ExecTrace.addUse pos)
        | .rateErr =>
          if attempt < backoff_max then
            (executeLoop backoff_max rest keys index1 (attempt + 1)).map fun t =>
              (t.addSleep (2 ^ attempt)).addUse pos
          else
            (executeLoop backoff_max rest (keys.set pos false) index1 attempt).map
              (ExecTrace.addUse pos)
        | .connErr =>
          if attempt < backoff_max then
            (executeLoop backoff_max rest keys index1 (attempt + 1)).map fun t =>
              (t.addSleep (2 ^ attempt)).addUse pos
          else
            (executeLoop backoff_max rest (keys.set pos false) index1 attempt).map
              (ExecTrace.addUse pos)
        | .otherErr => some ⟨[], [pos], .fatal⟩

/-- `KeyManager.execute`: every top-level call starts with `attempt = 0`. -/
def execute (backoff_max : Nat) (script : List Outcome) (keys : List Bool)
    (index : Nat) : Option ExecTrace :=
  executeLoop backoff_max script keys index 0

/-- C2, counterexample: the code keeps ONE `attempt` variable shared by the
rate-limit branch and the connection-error branch.  On a single-key pool
with `backoff_max = 3`, a rate-limit error followed by a connection error
makes the connection retry sleep `2 = 2^1` seconds — its backoff budget was
advanced by the rate-limit retry — whereas a fresh call whose first error
is a connection error sleeps `1 = 2^0` seconds.  Under the claimed
independent counters both first connection retries would sleep `2^0`. -/
theorem retry_counter_shared_cex :
    execute 3 [.rateErr, .connErr, .success] [true] 0 =
      some ⟨[1, 2], [0, 0, 0], .ok [true] 0 []⟩ ∧
    execute 3 [.connErr, .success] [true] 0 =
      some ⟨[1], [0, 0], .ok [true] 0 []⟩ := by
  exact ⟨rfl, rfl⟩

lemma executeLoop_sleeps (backoff_max : Nat) :
    ∀ (script : List Outcome) (keys : List Bool) (index attempt : Nat) (t : ExecTrace),
      attempt ≤ backoff_max →
      executeLoop backoff_max script keys index attempt = some t →
      ∃ j, attempt + j ≤ backoff_max ∧
        t.sleeps = (List.range j).map fun i => 2 ^ (attempt + i) := by
  intro script
  induction script with
  | nil =>
    intro keys index attempt t ha0 h
    rw [executeLoop] at h
    cases hk : get_key keys index with
    | none =>
      simp only [hk] at h
      refine ⟨0, by omega, ?_⟩
      cases h
      simp
    | some v =>
      simp only [hk] at h
      exact absurd h (by simp)
  | cons o rest ih =>
    intro keys index attempt t ha0 h
    rw [executeLoop] at h
    cases hk : get_key keys index with
    | none =>
      simp only [hk] at h
      refine ⟨0, by omega, ?_⟩
      cases h
      simp
    | some v =>
      obtain ⟨pos, index1⟩ := v
      simp only [hk] at h
      cases o with
      | success =>
        refine ⟨0, by omega, ?_⟩
        cases h
        simp
      | quotaErr =>
        obtain ⟨t1, ht1, rfl⟩ := Option.map_eq_some'.mp h
        obtain ⟨j, hj, hs⟩ := ih _ _ _ t1 ha0 ht1
        exact ⟨j, hj, hs⟩
      | rateErr =>
        by_cases ha : attempt < backoff_max
        · rw [if_pos ha] at h
          obtain ⟨t1, ht1, rfl⟩ := Option.map_eq_some'.mp h
          obtain ⟨j, hj, hs⟩ := ih _ _ _ t1 (by omega) ht1
          refine ⟨j + 1, by omega, ?_⟩
          simp only [ExecTrace.addUse, ExecTrace.addSleep, hs]
          rw [List.range_succ_eq_map]
          simp only [List.map_cons, List.map_map, Nat.add_zero]
          congr 1
          apply List.map_congr_left
          intro i _
          simp only [Function.comp_apply, Nat.succ_eq_add_one]
          congr 1
          omega
        · rw [if_neg ha] at h
          obtain ⟨t1, ht1, rfl⟩ := Option.map_eq_some'.mp h
          obtain ⟨j, hj, hs⟩ := ih _ _ _ t1 ha0 ht1
          exact ⟨j, hj, hs⟩
      | connErr =>
        by_cases ha : attempt < backoff_max
        · rw [if_pos ha] at h
          obtain ⟨t1, ht1, rfl⟩ := Option.map_eq_some'.mp h
          obtain ⟨j, hj, hs⟩ := ih _ _ _ t1 (by omega) ht1
          refine ⟨j + 1, by omega, ?_⟩
          simp only [ExecTrace.addUse, ExecTrace.addSleep, hs]
          rw [List.range_succ_eq_map]
          simp only [List.map_cons, List.map_map, Nat.add_zero]
          congr 1
          apply List.map_congr_left
          intro i _
          simp only [Function.comp_apply, Nat.succ_eq_add_one]
          congr 1
          omega
        · rw [if_neg ha] at h
          obtain ⟨t1, ht1, rfl⟩ := Option.map_eq_some'.mp h
          obtain ⟨j, hj, hs⟩ := ih _ _ _ t1 ha0 ht1
          exact ⟨j, hj, hs⟩
      | otherErr =>
        refine ⟨0, by omega, ?_⟩
        cases h
        simp

/-- C2, amended: within one top-level `execute` call a SINGLE shared
attempt counter serves both rate-limit-class and transient-network
retries — the i-th backoff sleep of either class is `2^(i-1)` seconds —
and this shared counter restarts at zero on every new top-level `execute`
call (so the sleeps of every call form the sequence `2^0, 2^1, ...`). -/
theorem execute_shared_backoff_counter (backoff_max : Nat) (script : List Outcome)
    (keys : List Bool) (index : Nat) (t : ExecTrace)
    (h : execute backoff_max script keys index = some t) :
    ∃ j, j ≤ backoff_max ∧ t.sleeps = (List.range j).map fun i => 2 ^ i := by
  obtain ⟨j, hj, hs⟩ :=
    executeLoop_sleeps backoff_max script keys index 0 t (Nat.zero_le _) h
  refine ⟨j, by omega, ?_⟩
  rw [hs]
  apply List.map_congr_left
  intro i _
  simp

/-- Witness for C2's amended theorem at the concrete shared-counter run. -/
theorem execute_shared_backoff_counter_witness :
    ∃ j, j ≤ 3 ∧
      (ExecTrace.mk [1, 2] [0, 0, 0] (.ok [true] 0 [])).sleeps =
        (List.range j).map fun i => 2 ^ i :=
  execute_shared_backoff_counter 3 [.rateErr, .connErr, .success] [true] 0
    ⟨[1, 2], [0, 0, 0], .ok [true] 0 []⟩ rfl

/-- C8, counterexample: after a rate-limit error the code does NOT retry
the same credential: `continue` re-enters `get_key`, whose cursor already
moved past the failing key, so on a two-key pool the retry executes on
position 1 although the rate-limit error hit position 0 (`used = [0, 1]`;
the claim's "retrying the same credential" would require `[0, 0]`). -/
theorem rate_retry_rotates_cex :
    execute 3 [.rateErr, .success] [true, true] 0 =
      some ⟨[1], [0, 1], .ok [true, true] 0 []⟩ := by
  exact rfl

/-- C8, amended: with `backoff_max = 3`, rate-limit errors on attempts
0, 1, 2 sleep exactly 1s, 2s, 4s (`2^attempt`), and the 4th consecutive
rate-limit failure deactivates the credential in hand instead of sleeping;
the retry acquires the next active credential in round-robin order, which
is the same credential only when the pool has a single key — as in this
single-key run, where all four attempts use position 0 and the
deactivation leaves no active key (`QuotaExceededAllKeys` follows). -/
theorem backoff_timing_single_key :
    execute 3 [.rateErr, .rateErr, .rateErr, .rateErr] [true] 0 =
      some ⟨[1, 2, 4], [0, 0, 0, 0], .quotaAll⟩ := by
  exact rfl

/-! ## The response cache of `search_once` (yt_parser.py lines 70, 245-292)

`CACHE` is a shelve, i.e. a string-keyed map.  Every access in
`search_once` follows one pattern: `if k in CACHE: r = CACHE[k] else:
r = key_manager.execute(...); CACHE[k] = r`.  The cache keys are built by
three f-strings. -/

/-- The search-page cache key `f"S:{keyword}:{REGION}:{token or ''}"`
(line 245); a `None` page token and an empty one collapse to the same
key. -/
def searchKey (keyword region : String) (token : Option String) : String :=
  "S:" ++ keyword ++ ":" ++ region ++ ":" ++ token.getD ""

/-- The video-detail cache key `f"V:{','.join(vids)}"` (line 266). -/
def videoKey (vids : List String) : String :=
  "V:" ++ String.intercalate "," vids

/-- The channel-detail cache key `f"C:{','.join(cids)}"` (line 281). -/
def channelKey (cids : List String) : String :=
  "C:" ++ String.intercalate "," cids

/-- `k in CACHE` / `CACHE[k]` on a string-keyed map (also reused for the
`amap` dict lookups). -/
def cacheLookup {α : Type} : List (String × α) → String → Option α
  | [], _ => none
  | (k, v) :: rest, key => if k = key then some v else cacheLookup rest key

/-- The cache access pattern of `search_once`: on a hit return the stored
response and make no executor call; on a miss call the executor (`net`),
store the response, and report one call.  Result: the response, the
updated cache, and the number of network (executor) calls made. -/
def cacheFetch {α : Type} (cache : List (String × α)) (key : String)
    (net : Unit → α) : α × List (String × α) × Nat :=
  match cacheLookup cache key with
  | some r => (r, cache, 0)
  | none => let r := net (); (r, (key, r) :: cache, 1)

/-- C4, counterexample: the claim's "the same set of video ids, or the
same set of channel ids" fails — the keys join the id lists in order
(unsorted), and the channel-id list is produced by iterating a Python
`set`, whose order is unspecified; two enumerations of the same two-id
set yield different cache-key strings. -/
theorem channel_key_order_cex :
    (["UCa", "UCb"] : List String).Perm ["UCb", "UCa"] ∧
    channelKey ["UCa", "UCb"] ≠ channelKey ["UCb", "UCa"] := by
  constructor
  · exact List.Perm.swap "UCb" "UCa" []
  · decide

/-- C4, amended: every cache key is a deterministic function of the
logical request's ordered identifying parameters — the search key of
(query, region, page token), with a missing token and an empty token
collapsing to the same key; the video and channel keys of the respective
id LIST in its given order.  Because the channel-id list is enumerated
from an unordered set, the same id set need not give the same key. -/
theorem cache_key_of_ordered_params :
    (∀ q r : String, searchKey q r none = searchKey q r (some "")) ∧
    (∃ cs cs' : List String, cs.Perm cs' ∧ channelKey cs ≠ channelKey cs') := by
  constructor
  · intro q r; rfl
  · exact ⟨["UCx", "UCy"], ["UCy", "UCx"], List.Perm.swap "UCy" "UCx" [], by decide⟩

/-- C5: once a response is stored under a key (`cacheLookup` finds it),
every `cacheFetch` with that key returns exactly the stored response, the
unchanged cache, and ZERO executor calls — for any network behavior `net`;
and every `cacheFetch` with any key preserves the stored binding (the
`else` branch only inserts keys that are absent, it never overwrites).
Together, by induction over the run's cache operations, a second get after
a put of the same key replays the identical prior response with no network
call. -/
theorem cache_hit_replay {α : Type} (cache : List (String × α)) (key : String)
    (r : α) (h : cacheLookup cache key = some r) :
    (∀ net : Unit → α, cacheFetch cache key net = (r, cache, 0)) ∧
    (∀ (k : String) (net : Unit → α),
      cacheLookup (cacheFetch cache k net).2.1 key = some r) := by
  constructor
  · intro net
    rw [cacheFetch, h]
  · intro k net
    rw [cacheFetch]
    cases hk : cacheLookup cache k with
    | some v => exact h
    | none =>
      simp only
      rw [cacheLookup]
      by_cases hkk : k = key
      · subst hkk
        rw [hk] at h
        cases h
      · rw [if_neg hkk]
        exact h

/-- Witness for C5 on a concrete one-entry cache. -/
theorem cache_hit_replay_witness :
    (∀ net : Unit → Nat, cacheFetch [("k", 5)] "k" net = (5, [("k", 5)], 0)) ∧
    (∀ (k : String) (net : Unit → Nat),
      cacheLookup (cacheFetch [("k", 5)] k net).2.1 "k" = some 5) :=
  cache_hit_replay [("k", 5)] "k" 5 (by decide)

/-! ## `search_once` (yt_parser.py lines 241-322)

API response objects are embedded as structures whose fields carry
`Option` exactly where the source reads them with `.get(..., default)`;
fields the source indexes directly (`it['id']`, `it['snippet']`,
`it['snippet']['channelId']`, channel thumbnail url) are plain fields.
External collaborators are parameters of the context: `isodate`
(`parse`), `langdetect` via `safe_detect`, the wall clock inside
`fmt_age`, the `key_manager.execute`d network calls (here always
successful; the raising paths are studied on the executor model above),
and the enumeration order of the Python `set` in `list({...})`
(`pySetList`). -/

structure SearchItem where
  videoId : Option String
deriving DecidableEq

structure SearchResp where
  items : List SearchItem
  nextPageToken : Option String
deriving DecidableEq

structure Snippet where
  liveBroadcastContent : Option String
  title : Option String
  description : Option String
  channelId : String
  channelTitle : Option String
  defaultAudioLanguage : Option String
  defaultLanguage : Option String
  publishedAt : Option String
deriving DecidableEq

structure ContentDetails where
  duration : Option String
deriving DecidableEq

structure Status where
  license : Option String
  embeddable : Option Bool
deriving DecidableEq

structure Statistics where
  viewCount : Option String
  likeCount : Option String
  dislikeCount : Option String
deriving DecidableEq

structure Player where
  embedHtml : Option String
deriving DecidableEq

structure VideoItem where
  id : String
  snippet : Snippet
  contentDetails : ContentDetails
  status : Status
  statistics : Statistics
  player : Player
deriving DecidableEq

structure VideoResp where
  items : List VideoItem
deriving DecidableEq

structure ChanItem where
  id : String
  avatarUrl : String
deriving DecidableEq

structure ChanResp where
  items : List ChanItem
deriving DecidableEq

/-- One element of the 20-column row list appended by `search_once`. -/
structure ResultRow where
  keyword : String
  input_url : String
  videoId : String
  title : String
  description : String
  language : String
  language_source : String
  video_type : String
  duration : String
  duration_seconds : Nat
  age : String
  author : String
  author_avatar : String
  view_count : String
  like_count : String
  dislike_count : String
  embeddable : Bool
  license : String
  allowed_on_third_party : Bool
  iframe : String
deriving DecidableEq

/-- Configuration and external collaborators of one run. -/
structure Ctx where
  NUM_RESULTS : Nat
  MAX_PAGES : Nat
  REGION : String
  parse : String → Nat
  safe_detect : String → String
  fmt_age : String → String
  pySetList : List String → List String
  searchNet : String → String → Nat → String → SearchResp
  videoNet : List String → VideoResp
  chanNet : List String → ChanResp

/-- The zero-padded rendering of the f-string field `{h:02d}` (all values
formatted by `iso2hms` are nonnegative). -/
def pad2 (n : Nat) : String :=
  if n < 10 then "0" ++ toString n else toString n

/-- `iso2hms` (lines 163-170).  The external
`isodate.parse_duration(iso).total_seconds()` is the parameter `parse`;
it is consulted only when `iso` is nonempty (`if not iso: return "", 0`). -/
def iso2hms (parse : String → Nat) (iso : String) : String × Nat :=
  if iso = "" then ("", 0)
  else
    let s := parse iso
    let h := s / 3600
    let r := s % 3600
    let m := r / 60
    let sec := r % 60
    (pad2 h ++ ":" ++ pad2 m ++ ":" ++ pad2 sec, s)

/-- Python truthiness of an optional string (`if sn.get(...)`). -/
def optTruthy (o : Option String) : Bool :=
  match o with
  | some s => !(s == "")
  | none => false

/-- `sn.get('liveBroadcastContent') in {'live', 'upcoming'}` (line 296). -/
def isLiveOrUpcoming (sn : Snippet) : Bool :=
  sn.liveBroadcastContent == some "live" || sn.liveBroadcastContent == some "upcoming"

/-- The row built by `rows.append([...])` (lines 298-320) for one
non-live video item. -/
def buildRow (ctx : Ctx) (keyword input_url : String)
    (amap : List (String × String)) (it : VideoItem) : ResultRow :=
  let sn := it.snippet
  let hms := iso2hms ctx.parse (it.contentDetails.duration.getD "")
  let lic := it.status.license.getD ""
  let emb := it.status.embeddable.getD false
  let langPair :=
    if optTruthy sn.defaultAudioLanguage then ("audio", sn.defaultAudioLanguage.getD "")
    else if optTruthy sn.defaultLanguage then ("default", sn.defaultLanguage.getD "")
    else
      let d := ctx.safe_detect ((sn.title.getD "") ++ " " ++ (sn.description.getD ""))
      ("detect", if d == "" then "unknown" else d)
  { keyword := keyword
    input_url := input_url
    videoId := it.id
    title := sn.title.getD ""
    description := sn.description.getD ""
    language := langPair.2
    language_source := langPair.1
    video_type := if hms.2 < 60 then "short" else "video"
    duration := hms.1
    duration_seconds := hms.2
    age := ctx.fmt_age (sn.publishedAt.getD "")
    author := sn.channelTitle.getD ""
    author_avatar := (cacheLookup amap sn.channelId).getD ""
    view_count := it.statistics.viewCount.getD ""
    like_count := it.statistics.likeCount.getD ""
    dislike_count := it.statistics.dislikeCount.getD ""
    embeddable := emb
    license := lic
    allowed_on_third_party := emb && (lic == "creativeCommon")
    iframe := it.player.embedHtml.getD
      ("<iframe src=\"https://www.youtube.com/embed/" ++ it.id ++
        "\" allowfullscreen></iframe>") }

/-- The `for it in vr.get('items', [])` loop of one page (lines 294-320):
live/upcoming items are skipped (`continue`), every other item appends one
row. -/
def pageRows (ctx : Ctx) (keyword input_url : String)
    (amap : List (String × String)) (items : List VideoItem) : List ResultRow :=
  items.filterMap fun it =>
    if isLiveOrUpcoming it.snippet then none
    else some (buildRow ctx keyword input_url amap it)

/-- The three shelve key spaces of `CACHE`, split by their disjoint
`S:` / `V:` / `C:` prefixes. -/
structure CacheState where
  s : List (String × SearchResp)
  v : List (String × VideoResp)
  c : List (String × ChanResp)
deriving DecidableEq

/-- What one iteration of the pagination `while` loop does after the page
guard: either `break` on an empty candidate list, or produce the enlarged
row list and the next token. -/
inductive StepOut where
  | emptyStop (cache : CacheState)
  | next (rows : List ResultRow) (token : Option String) (cache : CacheState)
deriving DecidableEq

/-- The body of the `while` loop of `search_once` (lines 244-321): search
page (cache or network), candidate extraction, `if not vids: break`,
video details (cache or network), channel details (cache or network),
row construction, next token (`sr.get('nextPageToken') or None`). -/
def searchStep (ctx : Ctx) (keyword input_url : String) (token : Option String)
    (rows : List ResultRow) (cache : CacheState) : StepOut :=
  let sk := searchKey keyword ctx.REGION token
  let srPair :=
    match cacheLookup cache.s sk with
    | some r => (r, cache.s)
    | none =>
      let r := ctx.searchNet keyword ctx.REGION
        (min 50 (ctx.NUM_RESULTS - rows.length)) (token.getD "")
      (r, (sk, r) :: cache.s)
  let sr := srPair.1
  let cache1 : CacheState := { cache with s := srPair.2 }
  let vids := sr.items.filterMap fun it =>
    match it.videoId with
    | some v => if v == "" then none else some v
    | none => none
  if vids = [] then .emptyStop cache1
  else
    let vk := videoKey vids
    let vrPair :=
      match cacheLookup cache1.v vk with
      | some r => (r, cache1.v)
      | none =>
        let r := ctx.videoNet vids
        (r, (vk, r) :: cache1.v)
    let vr := vrPair.1
    let cache2 : CacheState := { cache1 with v := vrPair.2 }
    let cids := ctx.pySetList (vr.items.map fun it => it.snippet.channelId)
    let chPair :=
      if cids = [] then ([], cache2.c)
      else
        let ck := channelKey cids
        match cacheLookup cache2.c ck with
        | some r => (r.items.map fun ci => (ci.id, ci.avatarUrl), cache2.c)
        | none =>
          let r := ctx.chanNet cids
          (r.items.map fun ci => (ci.id, ci.avatarUrl), (ck, r) :: cache2.c)
    let amap := chPair.1
    let cache3 : CacheState := { cache2 with c := chPair.2 }
    let rows1 := rows ++ pageRows ctx keyword input_url amap vr.items
    let token1 :=
      match sr.nextPageToken with
      | some t => if t == "" then none else some t
      | none => none
    .next rows1 token1 cache3

/-- Result of `search_once`, instrumented with the number of loop
iterations run (`page`) and whether the loop ended through the
`if not vids: break`. -/
structure SearchResult where
  rows : List ResultRow
  pages : Nat
  cache : CacheState
  stoppedOnEmpty : Bool
deriving DecidableEq

/-- The pagination `while len(rows) < NUM_RESULTS and page < MAX_PAGES`
loop.  `fuel` is `MAX_PAGES - page`, so the page-limit guard is the
`fuel = 0` case; note the loop tests NOTHING about the next-page token. -/
def searchLoop (ctx : Ctx) (keyword input_url : String) :
    Nat → Nat → Option String → List ResultRow → CacheState → SearchResult
  | 0, page, _, rows, cache => ⟨rows, page, cache, false⟩
  | fuel + 1, page, token, rows, cache =>
    if rows.length < ctx.NUM_RESULTS then
      match searchStep ctx keyword input_url token rows cache with
      | .emptyStop cache1 => ⟨rows, page + 1, cache1, true⟩
      | .next rows1 token1 cache1 =>
        searchLoop ctx keyword input_url fuel (page + 1) token1 rows1 cache1
    else ⟨rows, page, cache, false⟩

/-- `search_once(keyword, input_url)`: `rows, token, page = [], None, 0`. -/
def search_once (ctx : Ctx) (keyword input_url : String)
    (cache : CacheState) : SearchResult :=
  searchLoop ctx keyword input_url ctx.MAX_PAGES 0 none [] cache

/-- A context for a concrete two-page run: `NUM_RESULTS = 3`,
`MAX_PAGES = 2`, and a network whose search response carries one candidate
video and NO next-page token. -/
def ctxC3 : Ctx where
  NUM_RESULTS := 3
  MAX_PAGES := 2
  REGION := "US"
  parse := fun _ => 61
  safe_detect := fun _ => ""
  fmt_age := fun _ => ""
  pySetList := fun l => l.dedup
  searchNet := fun _ _ _ _ => ⟨[⟨some "vid1"⟩], none⟩
  videoNet := fun _ => ⟨[⟨"vid1",
    ⟨none, some "t", some "d", "ch1", some "A", some "en", none, none⟩,
    ⟨some "PT1M1S"⟩, ⟨some "youtube", some true⟩, ⟨none, none, none⟩, ⟨none⟩⟩]⟩
  chanNet := fun _ => ⟨[⟨"ch1", "http://a"⟩]⟩

/-- The single row the page of `ctxC3` produces. -/
def rowC3 : ResultRow :=
  buildRow ctxC3 "kw" "u" [("ch1", "http://a")]
    ⟨"vid1", ⟨none, some "t", some "d", "ch1", some "A", some "en", none, none⟩,
      ⟨some "PT1M1S"⟩, ⟨some "youtube", some true⟩, ⟨none, none, none⟩, ⟨none⟩⟩

/-- C3, counterexample: the pagination loop never inspects the next-page
token.  In `ctxC3` the page-1 response has no `nextPageToken`, yet the
loop runs a second page (`pages = 2`, not stopped by the empty-candidate
`break`): with `token = None` it rebuilds the SAME first-page cache key
`"S:kw:US:"`, replays the cached response, and appends the same row a
second time — where the claim requires pagination to stop after page 1. -/
theorem pagination_missing_token_cex :
    (search_once ctxC3 "kw" "u" ⟨[], [], []⟩).pages = 2 ∧
    (search_once ctxC3 "kw" "u" ⟨[], [], []⟩).stoppedOnEmpty = false ∧
    (search_once ctxC3 "kw" "u" ⟨[], [], []⟩).rows = [rowC3, rowC3] := by
  refine ⟨rfl, rfl, rfl⟩

lemma searchLoop_exit (ctx : Ctx) (keyword input_url : String) :
    ∀ (fuel page : Nat) (token : Option String) (rows : List ResultRow)
      (cache : CacheState),
      ctx.NUM_RESULTS ≤ (searchLoop ctx keyword input_url fuel page token rows cache).rows.length ∨
      (searchLoop ctx keyword input_url fuel page token rows cache).pages = page + fuel ∨
      (searchLoop ctx keyword input_url fuel page token rows cache).stoppedOnEmpty = true := by
  intro fuel
  induction fuel with
  | zero => intro page token rows cache; right; left; simp [searchLoop]
  | succ fuel ih =>
    intro page token rows cache
    rw [searchLoop]
    by_cases h : rows.length < ctx.NUM_RESULTS
    · rw [if_pos h]
      cases hs : searchStep ctx keyword input_url token rows cache with
      | emptyStop cache1 => right; right; rfl
      | next rows1 token1 cache1 =>
        rcases ih (page + 1) token1 rows1 cache1 with h1 | h1 | h1
        · exact Or.inl h1
        · right; left; rw [h1]; omega
        · exact Or.inr (Or.inr h1)
    · rw [if_neg h]
      exact Or.inl (Nat.le_of_not_lt h)

/-- C3, amended: the per-keyword pagination loop terminates exactly when
the first of these holds — accumulated rows reach `NUM_RESULTS`, the page
limit `MAX_PAGES` is reached, or a page's candidate video-id list is
empty.  The absence of a next-page token is NOT a stopping condition: the
loop then re-issues the first-page request (empty token, identical cache
key) and keeps appending until a count limit or an empty page stops it. -/
theorem pagination_stops_only_on_limits (ctx : Ctx) (keyword input_url : String)
    (cache : CacheState) :
    ctx.NUM_RESULTS ≤ (search_once ctx keyword input_url cache).rows.length ∨
    (search_once ctx keyword input_url cache).pages = ctx.MAX_PAGES ∨
    (search_once ctx keyword input_url cache).stoppedOnEmpty = true := by
  have h := searchLoop_exit ctx keyword input_url ctx.MAX_PAGES 0 none [] cache
  rw [Nat.zero_add] at h
  exact h

/-- C9: a row appears in the output of the per-page item loop exactly for
the items whose `liveBroadcastContent` is NOT `"live"`/`"upcoming"` (a tag
of `"none"`, any other value, or an absent tag passes the filter); tagged
live/upcoming items contribute no row.  All rows `search_once` ever
accumulates are produced by this loop. -/
theorem live_upcoming_filtered (ctx : Ctx) (keyword input_url : String)
    (amap : List (String × String)) (items : List VideoItem) (r : ResultRow) :
    r ∈ pageRows ctx keyword input_url amap items ↔
      ∃ it ∈ items, isLiveOrUpcoming it.snippet = false ∧
        r = buildRow ctx keyword input_url amap it := by
  simp only [pageRows, List.mem_filterMap]
  constructor
  · rintro ⟨it, hit, hr⟩
    by_cases hl : isLiveOrUpcoming it.snippet
    · rw [if_pos hl] at hr; cases hr
    · rw [if_neg hl] at hr
      refine ⟨it, hit, by simpa using hl, (Option.some.inj hr).symm⟩
  · rintro ⟨it, hit, hl, rfl⟩
    refine ⟨it, hit, ?_⟩
    rw [if_neg (by simp [hl])]

/-- C10: a video item whose `contentDetails.duration` is missing or empty
gets `duration = ""` and `duration_seconds = 0` (so its type bucket is
`'short'`, since `0 < 60`, never `'video'`), and the ISO parser is never
consulted for the empty string — `iso2hms` returns before parsing, so
absence of a duration cannot raise. -/
theorem missing_duration_short_bucket (ctx : Ctx) (keyword input_url : String)
    (amap : List (String × String)) (it : VideoItem)
    (h : it.contentDetails.duration = none ∨ it.contentDetails.duration = some "") :
    (buildRow ctx keyword input_url amap it).duration = "" ∧
    (buildRow ctx keyword input_url amap it).duration_seconds = 0 ∧
    (buildRow ctx keyword input_url amap it).video_type = "short" ∧
    (∀ parse : String → Nat, iso2hms parse "" = ("", 0)) := by
  have hd : it.contentDetails.duration.getD "" = "" := by
    rcases h with h | h <;> rw [h] <;> rfl
  refine ⟨?_, ?_, ?_, fun parse => rfl⟩ <;>
    simp [buildRow, hd, iso2hms]

/-- Context with trivial collaborators, for concrete instantiations. -/
def ctx0 : Ctx :=
  ⟨10, 1, "US", fun _ => 0, fun _ => "", fun _ => "", fun l => l,
    fun _ _ _ _ => ⟨[], none⟩, fun _ => ⟨[]⟩, fun _ => ⟨[]⟩⟩

/-- A video item with no duration field. -/
def itNoDur : VideoItem :=
  ⟨"v", ⟨none, none, none, "c", none, none, none, none⟩, ⟨none⟩,
    ⟨none, none⟩, ⟨none, none, none⟩, ⟨none⟩⟩

/-- Witness for C10 on a concrete item with an absent duration. -/
theorem missing_duration_short_bucket_witness :
    (buildRow ctx0 "k" "u" [] itNoDur).duration = "" ∧
    (buildRow ctx0 "k" "u" [] itNoDur).duration_seconds = 0 ∧
    (buildRow ctx0 "k" "u" [] itNoDur).video_type = "short" ∧
    (∀ parse : String → Nat, iso2hms parse "" = ("", 0)) :=
  missing_duration_short_bucket ctx0 "k" "u" [] itNoDur (Or.inl rfl)

/-! ## The main loop (yt_parser.py lines 336-391)

`for idx in range(start, len(keywords))` with `start =
prog.get('last_index', 0)`: per keyword run `search_once`, extend the
accumulators, write `prog['last_index'] = idx + 1`, and flush the batch to
the CSV and the spreadsheet every `BATCH_SIZE` keywords.
`QuotaExceededAllKeys` is caught by the `except` clause; any other
exception propagates.  The `finally` clause closes `prog` and `CACHE` on
every path; the final-batch flush (lines 377-391) runs only when no
exception is propagating.  What `search_once(kw, url)` does for keyword
`idx` is abstracted as `search idx`. -/

/-- Outcome of `search_once` for one keyword as the main loop sees it:
a row list returned, or an exception escaping it (`QuotaExceededAllKeys`
from the executor, or an unexpected `HttpError` re-raised). -/
inductive KwOutcome where
  | rows (rs : List ResultRow)
  | quotaAll
  | fatal
deriving DecidableEq

/-- Whether the keyword produced rows (its `prog` write happened). -/
def producesRows : KwOutcome → Bool
  | .rows _ => true
  | _ => false

/-- The rows a keyword contributed. -/
def rowsOf : KwOutcome → List ResultRow
  | .rows rs => rs
  | _ => []

/-- How the `for` loop ended. -/
inductive Ending where
  | finished
  | quotaCaught
  | fatalProp
deriving DecidableEq

/-- Observables of the `for` loop: keyword indices for which
`search_once` was invoked, successive `prog['last_index']` writes, batches
flushed (each delivered to both sinks), `batch_res` at loop exit, and how
the loop ended. -/
structure LoopOut where
  processed : List Nat
  writes : List Nat
  flushes : List (List ResultRow)
  batchLeft : List ResultRow
  ending : Ending
deriving DecidableEq

/-- The `for idx in ...` loop body over the remaining index list. -/
def runLoop (search : Nat → KwOutcome) (BATCH_SIZE start : Nat) :
    List Nat → List ResultRow → LoopOut
  | [], batch => ⟨[], [], [], batch, .finished⟩
  | idx :: rest, batch =>
    match search idx with
    | .rows rs =>
      let batch1 := batch ++ rs
      if (idx + 1 - start) % BATCH_SIZE = 0 then
        let out := runLoop search BATCH_SIZE start rest []
        ⟨idx :: out.processed, (idx + 1) :: out.writes, batch1 :: out.flushes,
          out.batchLeft, out.ending⟩
      else
        let out := runLoop search BATCH_SIZE start rest batch1
        ⟨idx :: out.processed, (idx + 1) :: out.writes, out.flushes,
          out.batchLeft, out.ending⟩
    | .quotaAll => ⟨[idx], [], [], batch, .quotaCaught⟩
    | .fatal => ⟨[idx], [], [], batch, .fatalProp⟩

/-- `start = prog.get('last_index', 0)` (line 337). -/
def startIndex (persisted : Option Nat) : Nat :=
  persisted.getD 0

/-- Observables of the whole script after the loop: the `finally` clause
closes both stores on every path; the leftover batch is flushed once more
(lines 377-391) only when no exception is propagating — i.e. after normal
completion or the caught `QuotaExceededAllKeys`, not after an unexpected
error. -/
structure RunOut where
  processed : List Nat
  writes : List Nat
  flushes : List (List ResultRow)
  finalFlush : Option (List ResultRow)
  storesClosed : Bool
  clean : Bool

/-- The whole main section: the loop over
`range(start, len(keywords))`, the `except QuotaExceededAllKeys` /
`finally` clauses, and the final-batch flush. -/
def runMain (search : Nat → KwOutcome) (BATCH_SIZE numKeywords start : Nat) :
    RunOut :=
  let L := runLoop search BATCH_SIZE start (List.range' start (numKeywords - start)) []
  match L.ending with
  | .fatalProp => ⟨L.processed, L.writes, L.flushes, none, true, false⟩
  | _ => ⟨L.processed, L.writes, L.flushes,
      (if L.batchLeft = [] then none else some L.batchLeft), true, true⟩

lemma mem_range'_le {s n i : Nat} (h : i ∈ List.range' s n) : s ≤ i := by
  simp only [List.mem_range'] at h
  omega

lemma range'_pairwise_lt (s n : Nat) : (List.range' s n).Pairwise (· < ·) := by
  induction n generalizing s with
  | zero => exact List.Pairwise.nil
  | succ n ih =>
    rw [List.range'_succ]
    refine List.Pairwise.cons ?_ (ih (s + 1))
    intro b hb
    have := mem_range'_le hb
    omega

lemma runLoop_shape (search : Nat → KwOutcome) (B start : Nat) :
    ∀ (l : List Nat) (batch : List ResultRow),
      (runLoop search B start l batch).writes =
        ((runLoop search B start l batch).processed.filter
          (fun i => producesRows (search i))).map (fun i => i + 1) ∧
      (runLoop search B start l batch).processed.Sublist l ∧
      (runLoop search B start l batch).flushes.flatten
          ++ (runLoop search B start l batch).batchLeft =
        batch ++ ((runLoop search B start l batch).processed.filter
          (fun i => producesRows (search i))).flatMap (fun i => rowsOf (search i)) := by
  intro l
  induction l with
  | nil =>
    intro batch
    refine ⟨rfl, List.Sublist.refl _, ?_⟩
    simp [runLoop]
  | cons idx rest ih =>
    intro batch
    cases hs : search idx with
    | rows rs =>
      by_cases hb : (idx + 1 - start) % B = 0
      · simp only [runLoop, hs, if_pos hb]
        obtain ⟨ihw, ihp, ihc⟩ := ih []
        refine ⟨?_, List.Sublist.cons₂ idx ihp, ?_⟩
        · simp only [List.filter_cons, hs, producesRows, List.map_cons, ihw]
          simp [hs]
        · simp only [List.flatten_cons, List.filter_cons, hs, producesRows,
            List.flatMap_cons, rowsOf]
          rw [List.append_assoc, ihc]
          simp only [List.nil_append]
          simp [hs]
          rfl
      · simp only [runLoop, hs, if_neg hb]
        obtain ⟨ihw, ihp, ihc⟩ := ih (batch ++ rs)
        refine ⟨?_, List.Sublist.cons₂ idx ihp, ?_⟩
        · simp only [List.filter_cons, hs, producesRows, List.map_cons, ihw]
          simp [hs]
        · simp only [List.filter_cons, hs, producesRows, List.flatMap_cons, rowsOf]
          rw [ihc]
          simp [hs]
          rfl
    | quotaAll =>
      simp only [runLoop, hs]
      refine ⟨?_, List.Sublist.cons₂ idx (List.nil_sublist rest), ?_⟩
      · simp [List.filter_cons, hs, producesRows]
      · simp [List.filter_cons, hs, producesRows]
    | fatal =>
      simp only [runLoop, hs]
      refine ⟨?_, List.Sublist.cons₂ idx (List.nil_sublist rest), ?_⟩
      · simp [List.filter_cons, hs, producesRows]
      · simp [List.filter_cons, hs, producesRows]

lemma runLoop_quota_ending (search : Nat → KwOutcome) (B start : Nat) :
    ∀ (l : List Nat) (batch : List ResultRow),
      (∃ i ∈ (runLoop search B start l batch).processed, search i = .quotaAll) →
      (runLoop search B start l batch).ending = .quotaCaught := by
  intro l
  induction l with
  | nil =>
    intro batch h
    obtain ⟨i, hi, _⟩ := h
    simp [runLoop] at hi
  | cons idx rest ih =>
    intro batch h
    obtain ⟨i, hi, hq⟩ := h
    cases hs : search idx with
    | rows rs =>
      by_cases hb : (idx + 1 - start) % B = 0
      · simp only [runLoop, hs, if_pos hb] at hi ⊢
        rcases List.mem_cons.mp hi with rfl | hi
        · rw [hs] at hq; cases hq
        · exact ih [] ⟨i, hi, hq⟩
      · simp only [runLoop, hs, if_neg hb] at hi ⊢
        rcases List.mem_cons.mp hi with rfl | hi
        · rw [hs] at hq; cases hq
        · exact ih (batch ++ rs) ⟨i, hi, hq⟩
    | quotaAll => simp [runLoop, hs]
    | fatal =>
      simp only [runLoop, hs] at hi ⊢
      rcases List.mem_cons.mp hi with rfl | hi
      · rw [hs] at hq; cases hq
      · simp at hi

lemma runLoop_fatal_ending (search : Nat → KwOutcome) (B start : Nat) :
    ∀ (l : List Nat) (batch : List ResultRow),
      (∃ i ∈ (runLoop search B start l batch).processed, search i = .fatal) →
      (runLoop search B start l batch).ending = .fatalProp := by
  intro l
  induction l with
  | nil =>
    intro batch h
    obtain ⟨i, hi, _⟩ := h
    simp [runLoop] at hi
  | cons idx rest ih =>
    intro batch h
    obtain ⟨i, hi, hq⟩ := h
    cases hs : search idx with
    | rows rs =>
      by_cases hb : (idx + 1 - start) % B = 0
      · simp only [runLoop, hs, if_pos hb] at hi ⊢
        rcases List.mem_cons.mp hi with rfl | hi
        · rw [hs] at hq; cases hq
        · exact ih [] ⟨i, hi, hq⟩
      · simp only [runLoop, hs, if_neg hb] at hi ⊢
        rcases List.mem_cons.mp hi with rfl | hi
        · rw [hs] at hq; cases hq
        · exact ih (batch ++ rs) ⟨i, hi, hq⟩
    | quotaAll =>
      simp only [runLoop, hs] at hi ⊢
      rcases List.mem_cons.mp hi with rfl | hi
      · rw [hs] at hq; cases hq
      · simp at hi
    | fatal => simp [runLoop, hs]

lemma runMain_eq (search : Nat → KwOutcome) (B numK start : Nat) :
    runMain search B numK start =
      if (runLoop search B start (List.range' start (numK - start)) []).ending = .fatalProp
      then ⟨(runLoop search B start (List.range' start (numK - start)) []).processed,
        (runLoop search B start (List.range' start (numK - start)) []).writes,
        (runLoop search B start (List.range' start (numK - start)) []).flushes,
        none, true, false⟩
      else ⟨(runLoop search B start (List.range' start (numK - start)) []).processed,
        (runLoop search B start (List.range' start (numK - start)) []).writes,
        (runLoop search B start (List.range' start (numK - start)) []).flushes,
        (if (runLoop search B start (List.range' start (numK - start)) []).batchLeft = []
          then none
          else some (runLoop search B start (List.range' start (numK - start)) []).batchLeft),
        true, true⟩ := by
  rw [runMain]
  cases h : (runLoop search B start (List.range' start (numK - start)) []).ending <;>
    simp [h]

lemma runMain_fields (search : Nat → KwOutcome) (B numK start : Nat) :
    (runMain search B numK start).processed =
      (runLoop search B start (List.range' start (numK - start)) []).processed ∧
    (runMain search B numK start).writes =
      (runLoop search B start (List.range' start (numK - start)) []).writes ∧
    (runMain search B numK start).flushes =
      (runLoop search B start (List.range' start (numK - start)) []).flushes ∧
    (runMain search B numK start).storesClosed = true := by
  rw [runMain_eq]
  by_cases h :
      (runLoop search B start (List.range' start (numK - start)) []).ending = .fatalProp
  · rw [if_pos h]; exact ⟨rfl, rfl, rfl, rfl⟩
  · rw [if_neg h]; exact ⟨rfl, rfl, rfl, rfl⟩

/-- C6: the progress cursor is monotone.  Within a run the successive
`prog['last_index']` writes are strictly increasing; every processed
keyword index is at least the `start` read from the persisted cursor (so a
resumed run never processes an index below it, and every write is at least
`start + 1`, giving monotonicity across runs); a write of `idx + 1`
happens exactly for the processed keywords whose `search_once` returned
(rows produced), in order; and a fresh run (no persisted value) starts at
index 0. -/
theorem progress_cursor_monotone (search : Nat → KwOutcome) (B numK start : Nat) :
    (runMain search B numK start).writes.Pairwise (· < ·) ∧
    (∀ i ∈ (runMain search B numK start).processed, start ≤ i) ∧
    (runMain search B numK start).writes =
      ((runMain search B numK start).processed.filter
        (fun i => producesRows (search i))).map (fun i => i + 1) ∧
    startIndex none = 0 := by
  obtain ⟨hp, hw, _, _⟩ := runMain_fields search B numK start
  obtain ⟨hshape, hsub, _⟩ :=
    runLoop_shape search B start (List.range' start (numK - start)) []
  have hmem : ∀ i ∈ (runMain search B numK start).processed, start ≤ i := by
    intro i hi
    rw [hp] at hi
    exact mem_range'_le (hsub.subset hi)
  refine ⟨?_, hmem, ?_, rfl⟩
  · rw [hw, hshape]
    have hpair : ((runLoop search B start (List.range' start (numK - start)) []).processed.filter
        (fun i => producesRows (search i))).Pairwise (· < ·) :=
      ((range'_pairwise_lt start (numK - start)).sublist
        ((List.filter_sublist _).trans hsub))
    rw [List.pairwise_map]
    exact hpair.imp (by omega)
  · rw [hw, hp, hshape]

/-- A run over one keyword that returns no rows. -/
def searchOneEmpty : Nat → KwOutcome := fun _ => .rows []

/-- Witness for C6 on a concrete one-keyword run. -/
theorem progress_cursor_monotone_witness :
    (runMain searchOneEmpty 50 1 0).writes.Pairwise (· < ·) ∧
    (0 : Nat) ≤ 0 ∧
    (runMain searchOneEmpty 50 1 0).writes =
      ((runMain searchOneEmpty 50 1 0).processed.filter
        (fun i => producesRows (searchOneEmpty i))).map (fun i => i + 1) ∧
    startIndex none = 0 := by
  have h := progress_cursor_monotone searchOneEmpty 50 1 0
  exact ⟨h.1, h.2.1 0 (by decide), h.2.2.1, h.2.2.2⟩

/-- C7: the `finally` clause closes both durable stores on every exit
path; when some processed keyword raised `QuotaExceededAllKeys`, the
`except` clause catches it and the run exits cleanly; on every clean exit
(normal completion or caught quota exhaustion) the rows of all completed
keywords are exactly the in-loop flushes plus the final flush of the
leftover batch — nothing accumulated is dropped; but when a processed
keyword raised an unclassified error, the run is not clean and the final
flush does not happen (the exception propagates past it). -/
theorem quota_graceful_shutdown (search : Nat → KwOutcome) (B numK start : Nat) :
    (runMain search B numK start).storesClosed = true ∧
    ((∃ i ∈ (runMain search B numK start).processed, search i = .quotaAll) →
      (runMain search B numK start).clean = true) ∧
    ((runMain search B numK start).clean = true →
      (runMain search B numK start).flushes.flatten
          ++ ((runMain search B numK start).finalFlush.getD []) =
        ((runMain search B numK start).processed.filter
          (fun i => producesRows (search i))).flatMap (fun i => rowsOf (search i))) ∧
    ((∃ i ∈ (runMain search B numK start).processed, search i = .fatal) →
      (runMain search B numK start).clean = false ∧
      (runMain search B numK start).finalFlush = none) := by
  obtain ⟨hp, _, _, hclosed⟩ := runMain_fields search B numK start
  obtain ⟨_, _, hcons⟩ :=
    runLoop_shape search B start (List.range' start (numK - start)) []
  rw [List.nil_append] at hcons
  refine ⟨hclosed, ?_, ?_, ?_⟩
  · intro hq
    rw [hp] at hq
    have hend := runLoop_quota_ending search B start _ _ hq
    rw [runMain_eq, if_neg (by rw [hend]; intro hcontra; cases hcontra)]
  · intro hc
    have hnotfatal : (runLoop search B start (List.range' start (numK - start)) []).ending ≠
        .fatalProp := by
      intro hend
      rw [runMain_eq, if_pos hend] at hc
      cases hc
    rw [runMain_eq, if_neg hnotfatal]
    by_cases hbl : (runLoop search B start (List.range' start (numK - start)) []).batchLeft = []
    · rw [if_pos hbl]
      simp only [Option.getD_none]
      rw [← hcons, hbl]
    · rw [if_neg hbl]
      simp only [Option.getD_some]
      exact hcons
  · intro hq
    rw [hp] at hq
    have hend := runLoop_fatal_ending search B start _ _ hq
    rw [runMain_eq, if_pos hend]
    exact ⟨rfl, rfl⟩

/-- A sample output row. -/
def sampleRow : ResultRow :=
  ⟨"k", "u", "v", "t", "d", "en", "audio", "short", "", 0, "", "a", "",
    "", "", "", false, "", false, "x"⟩

/-- Keyword 0 produces one row; every later keyword finds the credential
pool drained. -/
def searchThenQuota : Nat → KwOutcome :=
  fun i => if i = 0 then .rows [sampleRow] else .quotaAll

/-- Witness for C7 on a concrete run whose second keyword raises
`QuotaExceededAllKeys` with one unflushed row pending. -/
theorem quota_graceful_shutdown_witness :
    (runMain searchThenQuota 50 2 0).storesClosed = true ∧
    (runMain searchThenQuota 50 2 0).clean = true ∧
    (runMain searchThenQuota 50 2 0).flushes.flatten
        ++ ((runMain searchThenQuota 50 2 0).finalFlush.getD []) =
      ((runMain searchThenQuota 50 2 0).processed.filter
        (fun i => producesRows (searchThenQuota i))).flatMap
        (fun i => rowsOf (searchThenQuota i)) := by
  have h := quota_graceful_shutdown searchThenQuota 50 2 0
  have hq : ∃ i ∈ (runMain searchThenQuota 50 2 0).processed,
      searchThenQuota i = .quotaAll := ⟨1, by decide, by decide⟩
  have hc := h.2.1 hq
  exact ⟨h.1, hc, h.2.2.1 hc⟩

end YtParser
